import Mathlib

/-!
Verification of the spreadsheet type-consistency checker
(`backend/main.py`, endpoint `upload_file`).

The development shallowly embeds the pipeline of `upload_file`:
  * the tabular loader (`pd.read_excel` retry logic, lines 83-95),
  * the required-column validation (lines 98-106),
  * the consistency analyzer (lines 108-117: `dropna`, per-Name mode of
    `Data Type` via pandas `Series.mode()[0]`, the `Highlight` column and the
    grouped deviation summary),
  * the report-composer decisions (lines 127-178: output filename and
    per-format workbook strategy, removal/append of the reserved summary
    sheet),
  * the hyperlink phase (lines 185-215), and
  * the top-level exception-to-response mapping (lines 229-240).

Cell values are modelled as strings (the analyzed `Name` / `Data Type`
columns are categorical text columns); a missing cell is `Option.none`.
Behaviour of the external libraries (pandas, openpyxl) that the code relies
on is translated according to the libraries' documented semantics, e.g.
pandas `Series.mode()` returns the modal values sorted ascending, and
`DataFrame.groupby(..., sort=True)` (the default) emits groups sorted by
key.  String comparison (used by the sorting steps) is code-point
lexicographic, embedded below as an executable Boolean comparison.
-/

deriving instance DecidableEq for Except

namespace ExcelChecker

/-! ### Code-point lexicographic string order (Python / numpy `<`) -/

/-- Lexicographic strict order on character lists, comparing code points. -/
def ltCharList : List Char → List Char → Bool
  | [], [] => false
  | [], _ :: _ => true
  | _ :: _, [] => false
  | c :: cs, d :: ds =>
      if c.toNat < d.toNat then true
      else if d.toNat < c.toNat then false
      else ltCharList cs ds

/-- Code-point lexicographic strict order on strings (the order Python uses
to compare `str` values and numpy uses to sort them). -/
def strLt (a b : String) : Bool :=
  ltCharList a.data b.data

/-- The reflexive closure of `strLt`. -/
def strLe (a b : String) : Bool :=
  !(strLt b a)

/-! ### Data model -/

/-- One input row, projected to the two analyzed columns.  `none` models a
missing (NaN) cell, which `df.dropna` removes. -/
structure RawRow where
  name : Option String
  dtype : Option String
deriving DecidableEq, Repr

/-- A row surviving `df.dropna(subset=["Name", "Data Type"])`: both the
`Name` and the `Data Type` cell are present. -/
structure Record where
  name : String
  dtype : String
deriving DecidableEq, Repr

/-- The table produced by a successful `pd.read_excel` call: the column
names, and the rows projected to the two analyzed columns. -/
structure DataFrame where
  columns : List String
  rows : List RawRow
deriving DecidableEq, Repr

/-! ### Consistency analyzer (lines 108-117) -/

/-- Line 108, `df.dropna(subset=["Name", "Data Type"])`: keep exactly the
rows whose `Name` and `Data Type` cells are both present. -/
def dropna (rows : List RawRow) : List Record :=
  rows.filterMap fun r =>
    match r.name, r.dtype with
    | some n, some t => some ⟨n, t⟩
    | _, _ => none

/-- The multiset of `Data Type` values of the group of records whose `Name`
equals `n` (the series handed to the aggregation lambda of
`df.groupby("Name")["Data Type"].agg(...)`, line 111). -/
def groupTypes (rs : List Record) (n : String) : List String :=
  (rs.filter fun r => decide (r.name = n)).map Record.dtype

/-- The largest multiplicity occurring in `l` (the frequency of a modal
value). -/
def maxFreq (l : List String) : Nat :=
  (l.map fun v => l.count v).foldr max 0

/-- The values of `l` attaining the maximal multiplicity: the multiset of
modal values.  pandas `Series.mode()` returns exactly the distinct such
values, sorted ascending. -/
def modeCandidates (l : List String) : List String :=
  l.filter fun v => decide (l.count v = maxFreq l)

/-- Least element of a string list under `strLt` (`none` on the empty
list). -/
def listMin : List String → Option String
  | [] => none
  | x :: xs => some (xs.foldl (fun a b => if strLt b a then b else a) x)

/-- pandas `x.mode()[0] if not x.mode().empty else None` (line 111):
`Series.mode()` sorts the modal values ascending, so index `0` selects the
least modal value; an empty series yields `None`. -/
def seriesMode0 (l : List String) : Option String :=
  listMin (modeCandidates l)

/-- Line 111, `common_types`: per `Name`, the dominant `Data Type` value.
For a name absent from `rs` this is `none`, matching `dict.get`. -/
def common_types (rs : List Record) (n : String) : Option String :=
  seriesMode0 (groupTypes rs n)

/-- The `Highlight` column (lines 112-115):
`row["Data Type"] != common_types.get(row["Name"])`. -/
def highlight (rs : List Record) (r : Record) : Bool :=
  decide (common_types rs r.name ≠ some r.dtype)

/-- Helper for `uniqueFA`: drop every element already in `seen`, keeping
first appearances. -/
def uniqueFAAux {α : Type} [DecidableEq α] (seen : List α) : List α → List α
  | [] => []
  | x :: xs =>
      if seen.contains x then uniqueFAAux seen xs
      else x :: uniqueFAAux (x :: seen) xs

/-- First-appearance deduplication, as performed by
`pandas.Series.unique()`. -/
def uniqueFA {α : Type} [DecidableEq α] (l : List α) : List α :=
  uniqueFAAux [] l

/-- Line 116, `inconsistent_names = df[df["Highlight"]]["Name"].unique()`. -/
def inconsistent_names (rs : List Record) : List String :=
  uniqueFA ((rs.filter fun r => highlight rs r).map Record.name)

/-- Line 117, `df[df["Name"].isin(inconsistent_names)]`: every record whose
`Name` has at least one highlighted record. -/
def summarySource (rs : List Record) : List Record :=
  rs.filter fun r => (inconsistent_names rs).contains r.name

/-- The `(Name, Data Type)` grouping key of line 117. -/
def pairKey (r : Record) : String × String :=
  (r.name, r.dtype)

/-- Ascending order on grouping keys: pandas `groupby(..., sort=True)` (the
default) sorts the emitted groups by key tuple (Python tuple comparison,
i.e. lexicographic over the two strings). -/
def pairLe (a b : String × String) : Prop :=
  (strLt a.1 b.1 || (a.1 == b.1 && strLe a.2 b.2)) = true

instance : DecidableRel pairLe := fun a b => by
  unfold pairLe; infer_instance

/-- Line 117, `groupby(["Name", "Data Type"]).size()` for one key. -/
def countKey (l : List Record) (n t : String) : Nat :=
  (l.filter fun r => decide (r.name = n) && decide (r.dtype = t)).length

/-- The deviation summary (line 117):
`df[df["Name"].isin(inconsistent_names)].groupby(["Name", "Data Type"])
.size().reset_index(name="Count")` — one `(Name, Data Type, Count)` row per
distinct key occurring among the selected records, in ascending key
order. -/
def summary (rs : List Record) : List (String × String × Nat) :=
  (List.insertionSort pairLe (uniqueFA ((summarySource rs).map pairKey))).map
    fun k => (k.1, k.2, countKey (summarySource rs) k.1 k.2)

/-- The three rows of the spec's Scenario A. -/
def scenarioRows : List RawRow :=
  [⟨some "x", some "int"⟩, ⟨some "x", some "int"⟩, ⟨some "x", some "str"⟩]

/-! ### Tabular loader (lines 83-95) -/

/-- Abstract behaviour of the uploaded document under the pandas calls the
loader makes: reading the first sheet by index, listing the sheet names, and
reading one sheet by name.  `Except.error` carries the exception text. -/
structure ExcelDoc where
  readFirstSheet : Except String DataFrame
  sheetNames : Except String (List String)
  readSheet : String → Except String DataFrame

/-- The `ValueError` text raised on line 92 for a multi-sheet workbook. -/
def ambiguousSheetMsg : String :=
  "Excel 檔案包含多個工作表，請確保僅上傳包含一個工作表的檔案，或修改程式以處理特定工作表。"

/-- The fixed part of the `ValueError` text raised on line 95. -/
def unreadableMsgHead : String :=
  "無法讀取 Excel 檔案，請確認檔案格式正確、包含有效數據，且已安裝對應處理引擎。詳情: "

/-- The `ValueError` text raised on line 95: the fixed text followed by
`str(e_inner)`, the text of the exception caught by the inner handler. -/
def unreadableMsg (detail : String) : String :=
  unreadableMsgHead ++ detail

/-- Lines 83-95: try `pd.read_excel(input_path, sheet_name=0)`; on failure
build `pd.ExcelFile(input_path)` and, if it has exactly one sheet, retry
reading that specific sheet; otherwise raise the multi-sheet `ValueError`.
Everything raised inside the inner `try` — including the multi-sheet
`ValueError` itself — is caught by the inner handler and re-raised as the
line-95 `ValueError`, whose text embeds the inner exception's text. -/
def read_table (doc : ExcelDoc) : Except String DataFrame :=
  match doc.readFirstSheet with
  | .ok df => .ok df
  | .error _ =>
      match doc.sheetNames with
      | .error e2 => .error (unreadableMsg e2)
      | .ok names =>
          if names.length = 1 then
            match doc.readSheet (names.getD 0 "") with
            | .ok df => .ok df
            | .error e2 => .error (unreadableMsg e2)
          else .error (unreadableMsg ambiguousSheetMsg)

/-! ### Required-column validation (lines 98-106) -/

/-- Line 99, the Python set `required_columns` (modelled as a list in a
fixed order). -/
def required_columns : List String :=
  ["Name", "Data Type"]

/-- Line 101, `required_columns - set(df.columns)`.  Python iterates a
set in an unspecified order; the model fixes the `required_columns`
order. -/
def missing_columns (cols : List String) : List String :=
  required_columns.filter fun c => !(cols.contains c)

/-- The line-105 message: the fixed text followed by
`", ".join(missing_columns)`. -/
def missingColumnsMsg (missing : List String) : String :=
  "上傳的 Excel 檔案缺少必要欄位：" ++ String.intercalate ", " missing

/-- Lines 100-106: `required_columns.issubset(df.columns)` gates the 400
response naming the missing columns. -/
def validate_columns (cols : List String) : Except String Unit :=
  if required_columns.all (fun c => cols.contains c) then .ok ()
  else .error (missingColumnsMsg (missing_columns cols))

/-! ### Report composer: format strategy and output filename
(lines 71-80 and 127-165) -/

/-- How the output workbook is produced (lines 129-162): for `.xls`, a fresh
`openpyxl.Workbook` is created and every retained row is rewritten into it;
for `.xlsx` / `.xlsm`, the original file is loaded with `load_workbook` and
edited in place, passing `keep_vba=True` exactly for `.xlsm`. -/
inductive ComposeStrategy where
  | freshXlsx : ComposeStrategy
  | inPlace (keepVba : Bool) : ComposeStrategy
deriving DecidableEq, Repr

/-- The composer decisions that depend only on the input filename. -/
structure ComposePlan where
  strategy : ComposeStrategy
  output_filename : String
deriving DecidableEq, Repr

/-- Line 74, `supported_extensions`. -/
def supported_extensions : List String :=
  [".xlsx", ".xls", ".xlsm"]

/-- Python `str.lower()` on an ASCII file extension (line 72), embedded as a
per-character map. -/
def pyLower (s : String) : String :=
  String.mk (s.data.map Char.toLower)

/-- Lines 71-80 and 127-162, restricted to the filename-driven decisions.
`base` and `ext0` are the two parts of `os.path.splitext(file.filename)`,
so the original filename is `base ++ ext0`.  Unsupported extensions are
rejected (line 75); `.xls` yields a fresh `.xlsx` workbook and the output
name `result_` + base + `.xlsx` (lines 129-154); the other two formats keep
the default output name `result_` + original filename (line 127) and are
edited in place, with `keep_vba=True` exactly for `.xlsm`
(lines 156-162). -/
def compose_plan (base ext0 : String) : Option ComposePlan :=
  let ext := pyLower ext0
  if supported_extensions.contains ext then
    if ext = ".xls" then
      some ⟨.freshXlsx, "result_" ++ base ++ ".xlsx"⟩
    else
      some ⟨.inPlace (ext == ".xlsm"), "result_" ++ (base ++ ext0)⟩
  else none

/-! ### Report composer: the reserved summary sheet (lines 174-183) -/

/-- The reserved summary-sheet name `"統計結果"` of lines 174-178. -/
def reserved_summary_name : String :=
  "統計結果"

/-- Lines 174-178: if a sheet with the reserved name exists it is removed
(`wb.remove` deletes that one sheet), then `wb.create_sheet` appends a new
sheet with the reserved name at the end.  The workbook is modelled by its
ordered list of sheet names. -/
def add_summary_sheet (sheets : List String) : List String :=
  (if sheets.contains reserved_summary_name then
      sheets.erase reserved_summary_name
    else sheets) ++ [reserved_summary_name]

/-! ### Report composer: hyperlink phase (lines 185-215) -/

/-- The primary worksheet as the hyperlink phase reads it: the header row
(`ws[1]`) and the data rows (`ws` rows `2 .. max_row`), each cell an
optional string. -/
structure PrimarySheet where
  header : List (Option String)
  rows : List (List (Option String))
deriving DecidableEq, Repr

/-- The `Name` cell of one summary row after the hyperlink phase: its final
displayed value, and whether it was turned into a link (hyperlink formula
plus blue underlined font). -/
structure SummaryCell where
  value : String
  linked : Bool
deriving DecidableEq, Repr

/-- The appended `"統計結果"` sheet: its header row, its data rows, and the
final state of each row's `Name` cell. -/
structure SummarySheetOut where
  header : List String
  dataRows : List (String × String × Nat)
  nameCells : List SummaryCell
deriving DecidableEq, Repr

/-- Result of the summary-sheet and hyperlink phase: the summary sheet plus
whether the warning of line 192 (`Name` column not found, hyperlinks
skipped) was emitted. -/
structure ComposeLinksOut where
  sheet : SummarySheetOut
  warnedMissingNameColumn : Bool
deriving DecidableEq, Repr

/-- Lines 185-189: the 1-based position of the first header cell whose value
equals `"Name"`, or `none` (the code's `-1`). -/
def find_name_col (header : List (Option String)) : Option Nat :=
  (header.findIdx? fun c => c == some "Name").map (· + 1)

/-- ASCII whitespace recognised by Python `str.strip()`. -/
def isPySpace (c : Char) : Bool :=
  c.toNat = 32 || c.toNat = 9 || c.toNat = 10 || c.toNat = 13 ||
    c.toNat = 11 || c.toNat = 12

/-- Line 205, `str(v).strip().lower()` (ASCII model of Python's strip and
lower). -/
def normKey (s : String) : String :=
  pyLower (String.mk ((s.data.dropWhile isPySpace).reverse.dropWhile
    isPySpace).reverse)

/-- Lines 201-207: the first worksheet row `j ∈ 2 .. max_row` whose cell in
the `Name` column is present and matches the target after strip+lower, or
`none` (the code's `-1`).  `rows` lists worksheet rows `2 .. max_row`;
`colIdx` is 1-based. -/
def find_match_row (rows : List (List (Option String))) (colIdx : Nat)
    (target : String) : Option Nat :=
  (rows.findIdx? fun row =>
      match row.getD (colIdx - 1) none with
      | some v => normKey v == normKey target
      | none => false).map (· + 2)

/-- Helper for `get_column_letter`, structurally recursive on a fuel
argument (the fuel `n` is enough for the index `n`, whose quotient chain
strictly decreases). -/
def getColumnLetterAux : Nat → Nat → String
  | 0, _ => ""
  | _, 0 => ""
  | fuel + 1, n + 1 =>
      getColumnLetterAux fuel (n / 26) ++
        String.singleton (Char.ofNat (65 + n % 26))

/-- The library helper `openpyxl.utils.get_column_letter`: 1-based column index to bijective
base-26 letters (1 ↦ A, 26 ↦ Z, 27 ↦ AA, ...). -/
def get_column_letter (n : Nat) : String :=
  getColumnLetterAux n n

/-- Stand-in for `openpyxl.utils.quote_sheetname` (an external library
helper whose quoting details none of the claims depend on). -/
def quote_sheetname (title : String) : String :=
  title

/-- The `=HYPERLINK(...)` formula of lines 210-213, with the displayed text's
double quotes doubled as on line 212. -/
def hyperlink_formula (sheetTitle : String) (colIdx rowIdx : Nat)
    (display : String) : String :=
  "=HYPERLINK(\"#" ++ quote_sheetname sheetTitle ++ "!" ++
    get_column_letter colIdx ++ toString rowIdx ++ "\", \"" ++
    (display.replace "\"" "\"\"") ++ "\")"

/-- Lines 178-215: the summary sheet is created with header
`["Name", "Data Type", "Count"]` and one row per summary entry; then, if the
primary sheet's header has no `"Name"` cell, hyperlink generation is skipped
and the line-192 warning is logged; otherwise each summary row's `Name` cell
whose name matches some worksheet row becomes a hyperlink formula with link
styling, and non-matching cells stay plain. -/
def compose_links (primary : PrimarySheet) (sheetTitle : String)
    (summaryRows : List (String × String × Nat)) : ComposeLinksOut :=
  match find_name_col primary.header with
  | none =>
      ⟨⟨["Name", "Data Type", "Count"], summaryRows,
        summaryRows.map fun row => SummaryCell.mk row.1 false⟩, true⟩
  | some idx =>
      ⟨⟨["Name", "Data Type", "Count"], summaryRows,
        summaryRows.map fun row =>
          match find_match_row primary.rows idx row.1 with
          | some j => SummaryCell.mk (hyperlink_formula sheetTitle idx j row.1) true
          | none => SummaryCell.mk row.1 false⟩, false⟩

/-! ### Top-level exception handling (lines 229-240) -/

/-- An exception reaching the top-level handlers of `upload_file`: either a
`ValueError` (line 229) or any other exception (line 235), each carrying its
`str(...)` text. -/
inductive CaughtExc where
  | valueError (msg : String)
  | unexpected (msg : String)
deriving DecidableEq, Repr

/-- The JSON body and status code returned to the caller. -/
structure JsonResponse where
  statusCode : Nat
  success : Bool
  message : String
deriving DecidableEq, Repr

/-- The fixed part of the line-239 message, up to and including
`錯誤訊息: ` after which `str(e)` is interpolated. -/
def internal_error_head : String :=
  "伺服器內部錯誤，請聯繫管理員或稍後再試。錯誤訊息: "

/-- Lines 229-240: a `ValueError` becomes a 400 response with the
exception's text; any other exception becomes a 500 response whose message
is the fixed text followed by `str(e)`. -/
def upload_response (outcome : Except CaughtExc JsonResponse) : JsonResponse :=
  match outcome with
  | .ok r => r
  | .error (.valueError m) => ⟨400, false, m⟩
  | .error (.unexpected m) => ⟨500, false, internal_error_head ++ m⟩

/-! ### Helper lemmas: the code-point order -/

theorem ltCharList_cons_iff (x y : Char) (xs ys : List Char) :
    ltCharList (x :: xs) (y :: ys) = true ↔
      x.toNat < y.toNat ∨ (x.toNat = y.toNat ∧ ltCharList xs ys = true) := by
  simp only [ltCharList]
  split_ifs with h1 h2
  · simp [h1]
  · simp; omega
  · constructor
    · intro h; exact Or.inr ⟨by omega, h⟩
    · rintro (h | ⟨-, h⟩)
      · omega
      · exact h

theorem ltCharList_cons_false_iff (x y : Char) (xs ys : List Char) :
    ltCharList (x :: xs) (y :: ys) = false ↔
      y.toNat < x.toNat ∨ (x.toNat = y.toNat ∧ ltCharList xs ys = false) := by
  rw [← Bool.not_eq_true, ltCharList_cons_iff]
  constructor
  · intro h
    push_neg at h
    obtain ⟨h1, h2⟩ := h
    rcases Nat.lt_trichotomy x.toNat y.toNat with hlt | heq | hgt
    · omega
    · exact Or.inr ⟨heq, by simpa using h2 heq⟩
    · exact Or.inl hgt
  · rintro (h | ⟨heq, h⟩) <;> push_neg <;> refine ⟨by omega, ?_⟩
    · intro he; omega
    · intro _; simp [h]

theorem ltCharList_irrefl (a : List Char) : ltCharList a a = false := by
  induction a with
  | nil => rfl
  | cons x xs ih => rw [ltCharList_cons_false_iff]; exact Or.inr ⟨rfl, ih⟩

theorem ltCharList_trans : ∀ (a b c : List Char),
    ltCharList a b = true → ltCharList b c = true → ltCharList a c = true
  | [], [], _, h1, _ => by simp [ltCharList] at h1
  | [], _ :: _, [], _, h2 => by simp [ltCharList] at h2
  | [], _ :: _, _ :: _, _, _ => rfl
  | _ :: _, [], _, h1, _ => by simp [ltCharList] at h1
  | _ :: _, _ :: _, [], _, h2 => by simp [ltCharList] at h2
  | x :: xs, y :: ys, z :: zs, h1, h2 => by
      rw [ltCharList_cons_iff] at h1 h2 ⊢
      rcases h1 with h1 | ⟨h1e, h1r⟩ <;> rcases h2 with h2 | ⟨h2e, h2r⟩
      · exact Or.inl (by omega)
      · exact Or.inl (by omega)
      · exact Or.inl (by omega)
      · exact Or.inr ⟨by omega, ltCharList_trans xs ys zs h1r h2r⟩

theorem ltCharList_false_trans : ∀ (a b c : List Char),
    ltCharList b a = false → ltCharList c b = false → ltCharList c a = false
  | [], _, [], _, _ => rfl
  | [], _, _ :: _, _, _ => rfl
  | _ :: _, [], _, h1, _ => by simp [ltCharList] at h1
  | _ :: _, _ :: _, [], _, h2 => by simp [ltCharList] at h2
  | x :: xs, y :: ys, z :: zs, h1, h2 => by
      rw [ltCharList_cons_false_iff] at h1 h2 ⊢
      rcases h1 with h1 | ⟨h1e, h1r⟩ <;> rcases h2 with h2 | ⟨h2e, h2r⟩
      · exact Or.inl (by omega)
      · exact Or.inl (by omega)
      · exact Or.inl (by omega)
      · exact Or.inr ⟨by omega, ltCharList_false_trans xs ys zs h1r h2r⟩

theorem strLt_irrefl (a : String) : strLt a a = false :=
  ltCharList_irrefl a.data

theorem strLt_asymm (a b : String) (h : strLt a b = true) : strLt b a = false := by
  by_contra hc
  rw [Bool.not_eq_false] at hc
  have := ltCharList_trans a.data b.data a.data h hc
  rw [ltCharList_irrefl] at this
  exact Bool.false_ne_true this

theorem strLe_refl (a : String) : strLe a a = true := by
  simp [strLe, strLt_irrefl]

theorem strLe_trans (a b c : String) (h1 : strLe a b = true)
    (h2 : strLe b c = true) : strLe a c = true := by
  simp only [strLe, Bool.not_eq_true'] at h1 h2 ⊢
  exact ltCharList_false_trans a.data b.data c.data h1 h2

theorem strLe_of_strLt (a b : String) (h : strLt a b = true) : strLe a b = true := by
  simp only [strLe, Bool.not_eq_true']
  exact strLt_asymm a b h

theorem strLe_of_strLt_false (a b : String) (h : strLt b a = false) :
    strLe a b = true := by
  simp [strLe, h]

/-! ### Helper lemmas: `listMin` and the mode -/

theorem foldl_min_mem (xs : List String) (a : String) :
    xs.foldl (fun a b => if strLt b a then b else a) a = a ∨
      xs.foldl (fun a b => if strLt b a then b else a) a ∈ xs := by
  induction xs generalizing a with
  | nil => exact Or.inl rfl
  | cons b t ih =>
      simp only [List.foldl_cons]
      rcases ih (if strLt b a then b else a) with h | h
      · rw [h]
        split_ifs with hs
        · exact Or.inr (List.mem_cons_self _ _)
        · exact Or.inl rfl
      · exact Or.inr (List.mem_cons_of_mem _ h)

theorem foldl_min_le (xs : List String) (a : String) :
    strLe (xs.foldl (fun a b => if strLt b a then b else a) a) a = true ∧
      ∀ y ∈ xs, strLe (xs.foldl (fun a b => if strLt b a then b else a) a) y = true := by
  induction xs generalizing a with
  | nil => exact ⟨strLe_refl a, by simp⟩
  | cons b t ih =>
      simp only [List.foldl_cons]
      obtain ⟨ihle, ihall⟩ := ih (if strLt b a then b else a)
      have hma : strLe (if strLt b a then b else a) a = true := by
        split_ifs with hs
        · exact strLe_of_strLt b a hs
        · exact strLe_refl a
      have hmb : strLe (if strLt b a then b else a) b = true := by
        split_ifs with hs
        · exact strLe_refl b
        · exact strLe_of_strLt_false a b (by simpa using hs)
      refine ⟨strLe_trans _ _ _ ihle hma, ?_⟩
      intro y hy
      rcases List.mem_cons.1 hy with rfl | hy
      · exact strLe_trans _ _ _ ihle hmb
      · exact ihall y hy

theorem listMin_spec (l : List String) (h : l ≠ []) :
    ∃ m, listMin l = some m ∧ m ∈ l ∧ ∀ y ∈ l, strLe m y = true := by
  obtain ⟨x, xs, rfl⟩ := List.exists_cons_of_ne_nil h
  refine ⟨xs.foldl (fun a b => if strLt b a then b else a) x, rfl, ?_, ?_⟩
  · rcases foldl_min_mem xs x with h | h
    · rw [h]; exact List.mem_cons_self _ _
    · exact List.mem_cons_of_mem _ h
  · intro y hy
    obtain ⟨hle, hall⟩ := foldl_min_le xs x
    rcases List.mem_cons.1 hy with rfl | hy
    · exact hle
    · exact hall y hy

theorem le_foldr_max (l : List Nat) (x : Nat) (hx : x ∈ l) :
    x ≤ l.foldr max 0 := by
  induction l with
  | nil => cases hx
  | cons a t ih =>
      rcases List.mem_cons.1 hx with rfl | hx
      · exact Nat.le_max_left _ _
      · exact Nat.le_trans (ih hx) (Nat.le_max_right _ _)

theorem foldr_max_mem (l : List Nat) (h : l ≠ []) : l.foldr max 0 ∈ l := by
  induction l with
  | nil => exact absurd rfl h
  | cons a t ih =>
      cases t with
      | nil => simp
      | cons b t' =>
          rcases Nat.le_total a ((b :: t').foldr max 0) with hle | hle
          · rw [List.foldr_cons, Nat.max_eq_right hle]
            exact List.mem_cons_of_mem _ (ih (by simp))
          · rw [List.foldr_cons, Nat.max_eq_left hle]
            exact List.mem_cons_self _ _

theorem count_le_maxFreq (l : List String) (w : String) (hw : w ∈ l) :
    l.count w ≤ maxFreq l :=
  le_foldr_max _ _ (List.mem_map_of_mem _ hw)

theorem exists_count_eq_maxFreq (l : List String) (h : l ≠ []) :
    ∃ v ∈ l, l.count v = maxFreq l := by
  have hmem : maxFreq l ∈ l.map fun v => l.count v :=
    foldr_max_mem _ (by simpa using h)
  obtain ⟨v, hv, hc⟩ := List.mem_map.1 hmem
  exact ⟨v, hv, hc⟩

theorem seriesMode0_spec (l : List String) (h : l ≠ []) :
    ∃ v, seriesMode0 l = some v ∧ v ∈ l ∧ l.count v = maxFreq l ∧
      (∀ w ∈ l, l.count w ≤ l.count v) ∧
      (∀ w ∈ l, l.count w = l.count v → strLe v w = true) := by
  have hne : modeCandidates l ≠ [] := by
    obtain ⟨v, hv, hc⟩ := exists_count_eq_maxFreq l h
    exact List.ne_nil_of_mem (List.mem_filter.2 ⟨hv, by simpa using hc⟩)
  obtain ⟨m, hm, hmem, hall⟩ := listMin_spec (modeCandidates l) hne
  obtain ⟨hml, hmc⟩ := List.mem_filter.1 hmem
  have hmc' : l.count m = maxFreq l := by simpa using hmc
  refine ⟨m, hm, hml, hmc', ?_, ?_⟩
  · intro w hw
    rw [hmc']
    exact count_le_maxFreq l w hw
  · intro w hw hcw
    exact hall w (List.mem_filter.2 ⟨hw, by simp [hcw, hmc']⟩)

theorem seriesMode0_of_all_eq (l : List String) (v : String) (h : l ≠ [])
    (hall : ∀ x ∈ l, x = v) : seriesMode0 l = some v := by
  obtain ⟨m, hm, hml, -⟩ := seriesMode0_spec l h
  rw [hm, hall m hml]

/-! ### Helper lemmas: generic list facts -/

theorem contains_true_iff {α : Type} [DecidableEq α] (l : List α) (a : α) :
    l.contains a = true ↔ a ∈ l :=
  ⟨List.mem_of_elem_eq_true, List.elem_eq_true_of_mem⟩

theorem contains_false_iff {α : Type} [DecidableEq α] (l : List α) (a : α) :
    l.contains a = false ↔ a ∉ l := by
  rw [← Bool.not_eq_true, contains_true_iff]

theorem mem_uniqueFAAux {α : Type} [DecidableEq α] (l : List α) :
    ∀ (seen : List α) (a : α), a ∈ uniqueFAAux seen l ↔ a ∈ l ∧ a ∉ seen := by
  induction l with
  | nil => intro seen a; simp [uniqueFAAux]
  | cons x xs ih =>
      intro seen a
      simp only [uniqueFAAux]
      split_ifs with hx
      · rw [ih]
        have hxs : x ∈ seen := (contains_true_iff seen x).1 hx
        constructor
        · rintro ⟨h1, h2⟩; exact ⟨List.mem_cons_of_mem _ h1, h2⟩
        · rintro ⟨h1, h2⟩
          rcases List.mem_cons.1 h1 with rfl | h1
          · exact absurd hxs h2
          · exact ⟨h1, h2⟩
      · have hxs : x ∉ seen := fun hc =>
          hx ((contains_true_iff seen x).2 hc)
        rw [List.mem_cons, ih]
        constructor
        · rintro (rfl | ⟨h1, h2⟩)
          · exact ⟨List.mem_cons_self _ _, hxs⟩
          · exact ⟨List.mem_cons_of_mem _ h1,
              fun hc => h2 (List.mem_cons_of_mem _ hc)⟩
        · rintro ⟨h1, h2⟩
          rcases List.mem_cons.1 h1 with rfl | h1
          · exact Or.inl rfl
          · by_cases hax : a = x
            · exact Or.inl hax
            · exact Or.inr ⟨h1, by simp [hax, h2]⟩

theorem mem_uniqueFA {α : Type} [DecidableEq α] (l : List α) (a : α) :
    a ∈ uniqueFA l ↔ a ∈ l := by
  rw [uniqueFA, mem_uniqueFAAux]
  simp

theorem nodup_uniqueFAAux {α : Type} [DecidableEq α] (l : List α) :
    ∀ seen : List α, (uniqueFAAux seen l).Nodup := by
  induction l with
  | nil => intro seen; simp [uniqueFAAux]
  | cons x xs ih =>
      intro seen
      simp only [uniqueFAAux]
      split_ifs with hx
      · exact ih seen
      · refine List.Nodup.cons ?_ (ih (x :: seen))
        intro hc
        exact ((mem_uniqueFAAux xs (x :: seen) x).1 hc).2
          (List.mem_cons_self _ _)

theorem nodup_uniqueFA {α : Type} [DecidableEq α] (l : List α) :
    (uniqueFA l).Nodup :=
  nodup_uniqueFAAux l []

theorem map_filter_comm {α β : Type} (f : α → β) (p : β → Bool) (q : α → Bool)
    (h : ∀ a, p (f a) = q a) (l : List α) :
    (l.map f).filter p = (l.filter q).map f := by
  induction l with
  | nil => rfl
  | cons a t ih =>
      simp only [List.map_cons, List.filter_cons, h a]
      cases q a <;> simp [ih]

theorem filter_filter_eq {α : Type} (p q : α → Bool) (l : List α) :
    (l.filter p).filter q = l.filter fun a => p a && q a := by
  induction l with
  | nil => rfl
  | cons a t ih =>
      simp only [List.filter_cons]
      cases hp : p a <;> cases hq : q a <;> simp [List.filter_cons, hp, hq, ih]

theorem filter_congr_mem {α : Type} (p q : α → Bool) (l : List α)
    (h : ∀ a ∈ l, p a = q a) : l.filter p = l.filter q := by
  induction l with
  | nil => rfl
  | cons a t ih =>
      simp only [List.filter_cons, h a (List.mem_cons_self _ _)]
      rw [ih fun b hb => h b (List.mem_cons_of_mem _ hb)]

theorem map_congr_mem {α β : Type} (f g : α → β) (l : List α)
    (h : ∀ a ∈ l, f a = g a) : l.map f = l.map g := by
  induction l with
  | nil => rfl
  | cons a t ih =>
      simp only [List.map_cons, h a (List.mem_cons_self _ _)]
      rw [ih fun b hb => h b (List.mem_cons_of_mem _ hb)]

theorem length_filter_partition {α : Type} (p : α → Bool) (l : List α) :
    (l.filter p).length + (l.filter fun a => !(p a)).length = l.length := by
  induction l with
  | nil => rfl
  | cons a t ih =>
      simp only [List.filter_cons]
      cases hp : p a <;> simp [List.length_cons, ← ih] <;> omega

/-! ### Helper lemmas: the analyzer -/

theorem dtype_mem_groupTypes (rs : List Record) (r : Record) (hr : r ∈ rs) :
    r.dtype ∈ groupTypes rs r.name :=
  List.mem_map_of_mem _ (List.mem_filter.2 ⟨hr, by simp⟩)

theorem groupTypes_ne_nil (rs : List Record) (r : Record) (hr : r ∈ rs) :
    groupTypes rs r.name ≠ [] :=
  List.ne_nil_of_mem (dtype_mem_groupTypes rs r hr)

theorem mem_inconsistent_names_iff (rs : List Record) (n : String) :
    n ∈ inconsistent_names rs ↔
      ∃ r, r ∈ rs ∧ r.name = n ∧ highlight rs r = true := by
  rw [inconsistent_names, mem_uniqueFA]
  constructor
  · intro h
    obtain ⟨r, hr, hname⟩ := List.mem_map.1 h
    obtain ⟨hrm, hh⟩ := List.mem_filter.1 hr
    exact ⟨r, hrm, hname, hh⟩
  · rintro ⟨r, hrm, hname, hh⟩
    exact List.mem_map.2 ⟨r, List.mem_filter.2 ⟨hrm, hh⟩, hname⟩

theorem mem_summarySource_iff (rs : List Record) (r : Record) :
    r ∈ summarySource rs ↔ r ∈ rs ∧ r.name ∈ inconsistent_names rs := by
  rw [summarySource, List.mem_filter, contains_true_iff]

theorem summarySource_filter_name (rs : List Record) (n : String)
    (hn : n ∈ inconsistent_names rs) :
    (summarySource rs).filter (fun r => decide (r.name = n))
      = rs.filter (fun r => decide (r.name = n)) := by
  rw [summarySource, filter_filter_eq]
  apply filter_congr_mem
  intro r _
  by_cases h : r.name = n
  · rw [h]; simp [hn]
  · simp [h]

theorem countKey_summarySource (rs : List Record) (n t : String)
    (hn : n ∈ inconsistent_names rs) :
    countKey (summarySource rs) n t = countKey rs n t := by
  unfold countKey
  rw [summarySource, filter_filter_eq]
  congr 1
  apply filter_congr_mem
  intro r _
  by_cases h : r.name = n
  · rw [h]; simp [hn]
  · simp [h]

theorem summary_mem_characterize (rs : List Record) (n t : String) (c : Nat)
    (h : (n, t, c) ∈ summary rs) :
    n ∈ inconsistent_names rs ∧ (∃ r, r ∈ rs ∧ r.name = n ∧ r.dtype = t) ∧
      c = countKey rs n t := by
  unfold summary at h
  obtain ⟨k, hk, hfk⟩ := List.mem_map.1 h
  rw [Prod.mk.injEq, Prod.mk.injEq] at hfk
  obtain ⟨h1, h2, h3⟩ := hfk
  rw [List.mem_insertionSort, mem_uniqueFA] at hk
  obtain ⟨r, hrsrc, hkey⟩ := List.mem_map.1 hk
  subst hkey
  obtain ⟨hrm, hrn⟩ := (mem_summarySource_iff rs r).1 hrsrc
  simp only [pairKey] at h1 h2 h3
  have hn : n ∈ inconsistent_names rs := h1 ▸ hrn
  refine ⟨hn, ⟨r, hrm, h1, h2⟩, ?_⟩
  rw [← h3, h1, h2, countKey_summarySource rs n t hn]

theorem summary_complete (rs : List Record) (n t : String)
    (h1 : n ∈ inconsistent_names rs)
    (h2 : ∃ r, r ∈ rs ∧ r.name = n ∧ r.dtype = t) :
    (n, t, countKey rs n t) ∈ summary rs := by
  obtain ⟨r, hr, hname, hdtype⟩ := h2
  have hsrc : r ∈ summarySource rs :=
    (mem_summarySource_iff rs r).2 ⟨hr, hname ▸ h1⟩
  have hkey : (n, t) ∈ uniqueFA ((summarySource rs).map pairKey) := by
    rw [mem_uniqueFA]
    exact List.mem_map.2 ⟨r, hsrc, by simp [pairKey, hname, hdtype]⟩
  have hsk : (n, t) ∈
      List.insertionSort pairLe (uniqueFA ((summarySource rs).map pairKey)) := by
    rw [List.mem_insertionSort]; exact hkey
  unfold summary
  have hmap := List.mem_map_of_mem
    (fun k : String × String => (k.1, k.2, countKey (summarySource rs) k.1 k.2)) hsk
  simpa [countKey_summarySource rs n t h1] using hmap

theorem sum_counts_partition (g : List Record) (ts : List String)
    (hnd : ts.Nodup) (hcov : ∀ r ∈ g, r.dtype ∈ ts) :
    (ts.map fun t => (g.filter fun r => decide (r.dtype = t)).length).sum
      = g.length := by
  induction ts generalizing g with
  | nil =>
      cases g with
      | nil => rfl
      | cons r g' =>
          exact absurd (hcov r (List.mem_cons_self _ _)) (List.not_mem_nil _)
  | cons t ts' ih =>
      have hnotmem : t ∉ ts' := (List.nodup_cons.1 hnd).1
      have hnd' : ts'.Nodup := (List.nodup_cons.1 hnd).2
      have hmapeq : ts'.map (fun t' => (g.filter fun r => decide (r.dtype = t')).length)
          = ts'.map (fun t' =>
              ((g.filter fun r => !(decide (r.dtype = t))).filter
                fun r => decide (r.dtype = t')).length) := by
        apply map_congr_mem
        intro t' ht'
        congr 1
        rw [filter_filter_eq]
        apply filter_congr_mem
        intro r _
        by_cases h : r.dtype = t'
        · have ht'' : t' ≠ t := fun hc => hnotmem (hc ▸ ht')
          simp [h, ht'']
        · simp [h]
      have hcov' : ∀ r ∈ g.filter (fun r => !(decide (r.dtype = t))),
          r.dtype ∈ ts' := by
        intro r hr
        obtain ⟨hrg, hne⟩ := List.mem_filter.1 hr
        have hdt : r.dtype ≠ t := by simpa using hne
        rcases List.mem_cons.1 (hcov r hrg) with h | h
        · exact absurd h hdt
        · exact h
      rw [List.map_cons, List.sum_cons, hmapeq, ih _ hnd' hcov']
      exact length_filter_partition _ g

theorem sum_counts_over_keys (src : List Record) (n : String)
    (keys : List (String × String)) (hnd : keys.Nodup)
    (hmem : ∀ k, k ∈ keys ↔ k ∈ src.map pairKey) :
    ((keys.filter fun k => decide (k.1 = n)).map
        (fun k => countKey src k.1 k.2)).sum
      = (src.filter fun r => decide (r.name = n)).length := by
  have hfst : ∀ k ∈ keys.filter (fun k => decide (k.1 = n)), k.1 = n := by
    intro k hk
    have := (List.mem_filter.1 hk).2
    simpa using this
  have hstep1 : (keys.filter fun k => decide (k.1 = n)).map
        (fun k => countKey src k.1 k.2)
      = (keys.filter fun k => decide (k.1 = n)).map
        (fun k => countKey src n k.2) := by
    apply map_congr_mem
    intro k hk
    rw [hfst k hk]
  have hstep2 : (keys.filter fun k => decide (k.1 = n)).map
        (fun k => countKey src n k.2)
      = ((keys.filter fun k => decide (k.1 = n)).map Prod.snd).map
        (fun t => countKey src n t) := by
    rw [List.map_map]; rfl
  have hstep3 : ∀ t, countKey src n t
      = ((src.filter fun r => decide (r.name = n)).filter
          fun r => decide (r.dtype = t)).length := by
    intro t
    unfold countKey
    rw [filter_filter_eq]
  have hnd' : (((keys.filter fun k => decide (k.1 = n))).map Prod.snd).Nodup := by
    refine List.Nodup.map_on ?_ (List.Nodup.filter _ hnd)
    intro x hx y hy hxy
    have hx1 := hfst x hx
    have hy1 := hfst y hy
    exact Prod.ext (hx1.trans hy1.symm) hxy
  have hcov : ∀ r ∈ src.filter (fun r => decide (r.name = n)),
      r.dtype ∈ ((keys.filter fun k => decide (k.1 = n))).map Prod.snd := by
    intro r hr
    obtain ⟨hrs, hrn⟩ := List.mem_filter.1 hr
    have hrn' : r.name = n := by simpa using hrn
    have hkmem : pairKey r ∈ keys :=
      (hmem (pairKey r)).2 (List.mem_map_of_mem _ hrs)
    have hkf : pairKey r ∈ keys.filter (fun k => decide (k.1 = n)) :=
      List.mem_filter.2 ⟨hkmem, by simp [pairKey, hrn']⟩
    exact List.mem_map_of_mem Prod.snd hkf
  rw [hstep1, hstep2, map_congr_mem _ _ _ (fun t _ => hstep3 t)]
  exact sum_counts_partition _ _ hnd' hcov

theorem summary_counts_sum (rs : List Record) (n : String)
    (h : ∃ t c, (n, t, c) ∈ summary rs) :
    (((summary rs).filter fun row => decide (row.1 = n)).map
        fun row => row.2.2).sum
      = (rs.filter fun r => decide (r.name = n)).length := by
  obtain ⟨t0, c0, h0⟩ := h
  have hn : n ∈ inconsistent_names rs := (summary_mem_characterize rs n t0 c0 h0).1
  have hpush : (summary rs).filter (fun row => decide (row.1 = n))
      = ((List.insertionSort pairLe
            (uniqueFA ((summarySource rs).map pairKey))).filter
          fun k => decide (k.1 = n)).map
        (fun k => (k.1, k.2, countKey (summarySource rs) k.1 k.2)) := by
    unfold summary
    exact map_filter_comm _ _ _ (fun k => rfl) _
  rw [hpush, List.map_map]
  have hnd : (List.insertionSort pairLe
      (uniqueFA ((summarySource rs).map pairKey))).Nodup :=
    (List.perm_insertionSort pairLe _).nodup_iff.2 (nodup_uniqueFA _)
  have hmem : ∀ k, k ∈ List.insertionSort pairLe
      (uniqueFA ((summarySource rs).map pairKey)) ↔
        k ∈ (summarySource rs).map pairKey := by
    intro k
    rw [List.mem_insertionSort, mem_uniqueFA]
  have hkeys := sum_counts_over_keys (summarySource rs) n _ hnd hmem
  have hcomp : ((fun row : String × String × Nat => row.2.2) ∘
        fun k : String × String => (k.1, k.2, countKey (summarySource rs) k.1 k.2))
      = fun k : String × String => countKey (summarySource rs) k.1 k.2 := rfl
  rw [hcomp, hkeys, summarySource_filter_name rs n hn]

/-! ### Claim theorems: analyzer (C1 - C4) -/

/-- C1: after the rows with a missing `Name` or `Data Type` are dropped, a
record is highlighted iff its `Data Type` differs from the dominant value
`common_types` computes for its `Name` group; that dominant value is a mode
of the group (it occurs in the group and attains the maximal multiplicity);
and a record whose `Name` group carries a single distinct `Data Type` is
never highlighted. -/
theorem C1_flagged_iff_differs_from_dominant (rows : List RawRow)
    (rs : List Record) (hrs : rs = dropna rows) :
    (∀ r ∈ rs, highlight rs r = true ↔ common_types rs r.name ≠ some r.dtype)
    ∧ (∀ r ∈ rs, ∃ v, common_types rs r.name = some v ∧
        v ∈ groupTypes rs r.name ∧
        ∀ w ∈ groupTypes rs r.name,
          (groupTypes rs r.name).count w ≤ (groupTypes rs r.name).count v)
    ∧ (∀ r ∈ rs, (∀ r' ∈ rs, r'.name = r.name → r'.dtype = r.dtype) →
        highlight rs r = false) := by
  subst hrs
  refine ⟨?_, ?_, ?_⟩
  · intro r _
    simp [highlight]
  · intro r hr
    obtain ⟨v, hv, hvmem, -, hmax, -⟩ :=
      seriesMode0_spec _ (groupTypes_ne_nil _ r hr)
    exact ⟨v, hv, hvmem, fun w hw => by
      have := hmax w hw
      omega⟩
  · intro r hr hsingle
    have hall : ∀ x ∈ groupTypes (dropna rows) r.name, x = r.dtype := by
      intro x hx
      obtain ⟨r', hr', hx'⟩ := List.mem_map.1 hx
      obtain ⟨hr'm, hname⟩ := List.mem_filter.1 hr'
      rw [← hx']
      exact hsingle r' hr'm (by simpa using hname)
    have hct : common_types (dropna rows) r.name = some r.dtype :=
      seriesMode0_of_all_eq _ _ (groupTypes_ne_nil _ r hr) hall
    simp [highlight, hct]

/-- C1 witness: in a one-record dataset the single record's group has a
single distinct `Data Type`, so it is not highlighted. -/
theorem C1_witness :
    highlight (dropna [⟨some "y", some "int"⟩]) ⟨"y", "int"⟩ = false :=
  (C1_flagged_iff_differs_from_dominant [⟨some "y", some "int"⟩]
      (dropna [⟨some "y", some "int"⟩]) rfl).2.2
    ⟨"y", "int"⟩ (by decide) (by decide)

/-- C2: a `(Name, Data Type, Count)` row is in the deviation summary iff the
`Name` is in the flagged-name set and the combination occurs among the
analyzed records (so dominant-value rows are included), with `Count` the
number of analyzed records carrying that combination; the flagged-name set
holds exactly the names with at least one highlighted record; and for every
name appearing in the summary the counts sum to the total number of analyzed
records with that name. -/
theorem C2_summary_characterization (rows : List RawRow) (rs : List Record)
    (_hrs : rs = dropna rows) :
    (∀ n, n ∈ inconsistent_names rs ↔
        ∃ r, r ∈ rs ∧ r.name = n ∧ highlight rs r = true)
    ∧ (∀ n t c, (n, t, c) ∈ summary rs →
        n ∈ inconsistent_names rs ∧ (∃ r, r ∈ rs ∧ r.name = n ∧ r.dtype = t) ∧
          c = countKey rs n t)
    ∧ (∀ n t, n ∈ inconsistent_names rs →
        (∃ r, r ∈ rs ∧ r.name = n ∧ r.dtype = t) →
          (n, t, countKey rs n t) ∈ summary rs)
    ∧ (∀ n, (∃ t c, (n, t, c) ∈ summary rs) →
        (((summary rs).filter fun row => decide (row.1 = n)).map
            fun row => row.2.2).sum
          = (rs.filter fun r => decide (r.name = n)).length) :=
  ⟨fun n => mem_inconsistent_names_iff rs n,
   fun n t c h => summary_mem_characterize rs n t c h,
   fun n t h1 h2 => summary_complete rs n t h1 h2,
   fun n h => summary_counts_sum rs n h⟩

/-- C2 witness: on Scenario A the counts for name `x` sum to the number of
analyzed records named `x` (3). -/
theorem C2_witness :
    (((summary (dropna scenarioRows)).filter
        fun row => decide (row.1 = "x")).map fun row => row.2.2).sum
      = ((dropna scenarioRows).filter fun r => decide (r.name = "x")).length :=
  (C2_summary_characterization scenarioRows (dropna scenarioRows) rfl).2.2.2
    "x" ⟨"int", 2, by decide⟩

/-- C3 counterexample: on Scenario A the produced summary is
`[("x", "int", 2), ("x", "str", 1)]` — it also carries the dominant
combination — and is therefore not the claimed single row
`[("x", "str", 1)]`. -/
theorem C3_counterexample :
    summary (dropna scenarioRows) ≠ [("x", "str", 1)]
    ∧ summary (dropna scenarioRows) = [("x", "int", 2), ("x", "str", 1)] := by
  constructor
  · decide
  · decide

/-- C3 amended: on Scenario A the dominant value of `x` is `int`, only the
third row is highlighted, and the summary holds one row per
`(Name, Data Type)` combination occurring among the records whose name has a
highlighted record — including the dominant combination — namely
`[("x", "int", 2), ("x", "str", 1)]`. -/
theorem C3_amended_scenario :
    common_types (dropna scenarioRows) "x" = some "int"
    ∧ (dropna scenarioRows).map (highlight (dropna scenarioRows))
        = [false, false, true]
    ∧ summary (dropna scenarioRows) = [("x", "int", 2), ("x", "str", 1)] := by
  refine ⟨by decide, by decide, by decide⟩

/-- C4 counterexample: for the rows `[(x, str), (x, int)]` the two values are
tied in frequency, the value first seen in row order is `str`, yet the
dominant value computed is `int`, and the row carrying the first-seen value
is flagged. -/
theorem C4_counterexample :
    ((dropna [⟨some "x", some "str"⟩, ⟨some "x", some "int"⟩]).map
        Record.dtype).head? = some "str"
    ∧ common_types (dropna [⟨some "x", some "str"⟩, ⟨some "x", some "int"⟩]) "x"
        = some "int"
    ∧ ("int" : String) ≠ "str"
    ∧ highlight (dropna [⟨some "x", some "str"⟩, ⟨some "x", some "int"⟩])
        ⟨"x", "str"⟩ = true := by
  refine ⟨by decide, by decide, by decide, by decide⟩

/-- C4 amended: the dominant value of a `Name` group is the
lexicographically least (code-point order) among the values of maximal
frequency — pandas `Series.mode()` sorts the modes ascending and index `0`
is taken — not the first-seen tied value; and exactly the records carrying a
value different from that chosen dominant are flagged. -/
theorem C4_amended_tie_break (rows : List RawRow) (rs : List Record)
    (hrs : rs = dropna rows) (r : Record) (hr : r ∈ rs) :
    ∃ v, common_types rs r.name = some v ∧ v ∈ groupTypes rs r.name ∧
      (∀ w ∈ groupTypes rs r.name,
        (groupTypes rs r.name).count w ≤ (groupTypes rs r.name).count v) ∧
      (∀ w ∈ groupTypes rs r.name,
        (groupTypes rs r.name).count w = (groupTypes rs r.name).count v →
          strLe v w = true) ∧
      (highlight rs r = true ↔ r.dtype ≠ v) := by
  subst hrs
  obtain ⟨v, hv, hmem, -, hmax, hleast⟩ :=
    seriesMode0_spec _ (groupTypes_ne_nil _ r hr)
  refine ⟨v, hv, hmem, hmax, hleast, ?_⟩
  have hct : common_types (dropna rows) r.name = some v := hv
  unfold highlight
  rw [hct, decide_eq_true_eq]
  constructor
  · intro h hc
    exact h (by rw [hc])
  · intro h hc
    exact h (Option.some.inj hc).symm

/-- C4 witness: instantiating the amended tie-break theorem on the tied
two-row group. -/
theorem C4_amended_witness :
    ∃ v, common_types (dropna [⟨some "x", some "str"⟩, ⟨some "x", some "int"⟩])
        (Record.name ⟨"x", "str"⟩) = some v ∧
      v ∈ groupTypes (dropna [⟨some "x", some "str"⟩, ⟨some "x", some "int"⟩])
        (Record.name ⟨"x", "str"⟩) ∧
      (∀ w ∈ groupTypes (dropna [⟨some "x", some "str"⟩, ⟨some "x", some "int"⟩])
          (Record.name ⟨"x", "str"⟩),
        (groupTypes (dropna [⟨some "x", some "str"⟩, ⟨some "x", some "int"⟩])
            (Record.name ⟨"x", "str"⟩)).count w ≤
          (groupTypes (dropna [⟨some "x", some "str"⟩, ⟨some "x", some "int"⟩])
              (Record.name ⟨"x", "str"⟩)).count v) ∧
      (∀ w ∈ groupTypes (dropna [⟨some "x", some "str"⟩, ⟨some "x", some "int"⟩])
          (Record.name ⟨"x", "str"⟩),
        (groupTypes (dropna [⟨some "x", some "str"⟩, ⟨some "x", some "int"⟩])
            (Record.name ⟨"x", "str"⟩)).count w =
          (groupTypes (dropna [⟨some "x", some "str"⟩, ⟨some "x", some "int"⟩])
              (Record.name ⟨"x", "str"⟩)).count v →
          strLe v w = true) ∧
      (highlight (dropna [⟨some "x", some "str"⟩, ⟨some "x", some "int"⟩])
          ⟨"x", "str"⟩ = true ↔ Record.dtype ⟨"x", "str"⟩ ≠ v) :=
  C4_amended_tie_break [⟨some "x", some "str"⟩, ⟨some "x", some "int"⟩]
    (dropna [⟨some "x", some "str"⟩, ⟨some "x", some "int"⟩]) rfl
    ⟨"x", "str"⟩ (by decide)

/-! ### Claim theorems: loader and validation (C5, C6) -/

/-- C5: when the direct first-sheet read fails, a single-sheet document is
retried by reading that specific sheet (the loader's outcome is that sheet's
read outcome, with a read failure wrapped in the unreadable-file message); a
multi-sheet document makes loading fail with the `ValueError` whose text
embeds the multi-sheet ambiguity message, and no sheet is guessed (the
outcome is never a table). -/
theorem C5_loader_retry_and_ambiguity (doc : ExcelDoc) (e : String)
    (names : List String) (h1 : doc.readFirstSheet = .error e)
    (h2 : doc.sheetNames = .ok names) :
    (∀ s df, names = [s] → doc.readSheet s = .ok df →
        read_table doc = .ok df)
    ∧ (∀ s e2, names = [s] → doc.readSheet s = .error e2 →
        read_table doc = .error (unreadableMsg e2))
    ∧ (2 ≤ names.length →
        read_table doc = .error (unreadableMsgHead ++ ambiguousSheetMsg)
        ∧ ∀ df, read_table doc ≠ .ok df) := by
  refine ⟨?_, ?_, ?_⟩
  · rintro s df rfl hs
    simp [read_table, h1, h2, hs]
  · rintro s e2 rfl hs
    simp [read_table, h1, h2, hs]
  · intro hlen
    have hne : names.length ≠ 1 := by omega
    refine ⟨?_, ?_⟩
    · simp [read_table, h1, h2, hne, unreadableMsg]
    · intro df
      simp [read_table, h1, h2, hne, unreadableMsg]

/-- C5 witness: a document whose direct read fails and that lists two sheets
is rejected with the wrapped ambiguity message. -/
theorem C5_witness :
    read_table ⟨.error "boom", .ok ["A", "B"], fun _ => .error "x"⟩
      = .error (unreadableMsgHead ++ ambiguousSheetMsg) :=
  ((C5_loader_retry_and_ambiguity
      ⟨.error "boom", .ok ["A", "B"], fun _ => .error "x"⟩
      "boom" ["A", "B"] rfl rfl).2.2 (by decide)).1

/-- C6: validation passes iff both required columns are present; the
missing-column list holds exactly the absent required columns; on failure
the error message names them; and a table having `Name` but not `Data Type`
fails with the message naming exactly `Data Type`. -/
theorem C6_missing_required_columns (cols : List String) :
    (validate_columns cols = .ok () ↔ ("Name" ∈ cols ∧ "Data Type" ∈ cols))
    ∧ (∀ c, c ∈ missing_columns cols ↔ c ∈ required_columns ∧ c ∉ cols)
    ∧ (¬ ("Name" ∈ cols ∧ "Data Type" ∈ cols) →
        validate_columns cols
          = .error (missingColumnsMsg (missing_columns cols)))
    ∧ ("Name" ∈ cols → "Data Type" ∉ cols →
        validate_columns cols
          = .error "上傳的 Excel 檔案缺少必要欄位：Data Type") := by
  have hall : (required_columns.all fun c => cols.contains c) = true ↔
      ("Name" ∈ cols ∧ "Data Type" ∈ cols) := by
    simp [required_columns, contains_true_iff]
  have h3 : ¬ ("Name" ∈ cols ∧ "Data Type" ∈ cols) →
      validate_columns cols
        = .error (missingColumnsMsg (missing_columns cols)) := by
    intro h
    rw [validate_columns, if_neg]
    intro hc
    exact h (hall.1 hc)
  refine ⟨?_, ?_, h3, ?_⟩
  · rw [validate_columns]
    split_ifs with hc
    · simpa using hall.1 hc
    · constructor
      · intro h
        simp at h
      · intro h
        exact absurd (hall.2 h) hc
  · intro c
    simp [missing_columns, List.mem_filter, contains_false_iff]
  · intro hn hd
    have hmc : missing_columns cols = ["Data Type"] := by
      simp [missing_columns, required_columns, List.filter_cons, hn, hd]
    rw [h3 (fun hc => hd hc.2), hmc]
    rfl

/-- C6 witness: a table with only the `Name` column fails naming exactly
`Data Type`. -/
theorem C6_witness :
    validate_columns ["Name"]
      = .error "上傳的 Excel 檔案缺少必要欄位：Data Type" :=
  (C6_missing_required_columns ["Name"]).2.2.2 (by decide) (by decide)

/-! ### Claim theorems: composer (C7, C8, C9) -/

/-- C7: a `.xls` input is composed into a freshly built `.xlsx` workbook
whose filename is the input base name with the `result_` prefix and the
`.xlsx` extension; `.xlsx` and `.xlsm` inputs keep their own format and the
`result_` prefix on the unchanged filename, loaded in place with
`keep_vba=True` exactly for `.xlsm`. -/
theorem C7_format_strategy_and_filename (base : String) :
    compose_plan base ".xls"
        = some ⟨.freshXlsx, "result_" ++ base ++ ".xlsx"⟩
    ∧ compose_plan base ".xlsx"
        = some ⟨.inPlace false, "result_" ++ (base ++ ".xlsx")⟩
    ∧ compose_plan base ".xlsm"
        = some ⟨.inPlace true, "result_" ++ (base ++ ".xlsm")⟩ :=
  ⟨rfl, rfl, rfl⟩

/-- Removing any pre-existing reserved sheet and appending a fresh one
leaves exactly one copy of the reserved name, as long as the workbook held
at most one copy (openpyxl keeps sheet names unique). -/
theorem count_add_summary_sheet (sheets : List String)
    (h : sheets.count reserved_summary_name ≤ 1) :
    (add_summary_sheet sheets).count reserved_summary_name = 1 := by
  unfold add_summary_sheet
  rw [List.count_append]
  by_cases hc : sheets.contains reserved_summary_name
  · rw [if_pos hc]
    have hmem : reserved_summary_name ∈ sheets := (contains_true_iff _ _).1 hc
    have hpos : 0 < sheets.count reserved_summary_name :=
      List.count_pos_iff.2 hmem
    rw [List.count_erase_self]
    simp
    omega
  · rw [if_neg hc]
    have hnm : reserved_summary_name ∉ sheets :=
      fun hm => hc ((contains_true_iff _ _).2 hm)
    rw [List.count_eq_zero.2 hnm]
    simp

/-- C8: before the summary sheet is appended any pre-existing sheet with the
reserved name is removed, so one run leaves exactly one summary sheet and a
second run over the already-processed workbook still leaves exactly one. -/
theorem C8_summary_sheet_idempotent (sheets : List String)
    (h : sheets.count reserved_summary_name ≤ 1) :
    (add_summary_sheet sheets).count reserved_summary_name = 1
    ∧ (add_summary_sheet (add_summary_sheet sheets)).count
        reserved_summary_name = 1 := by
  have h1 := count_add_summary_sheet sheets h
  exact ⟨h1, count_add_summary_sheet _ (by omega)⟩

/-- C8 witness: a workbook already holding the reserved sheet still ends up
with exactly one copy after one and after two runs. -/
theorem C8_witness :
    (add_summary_sheet ["Sheet1", "統計結果"]).count reserved_summary_name = 1
    ∧ (add_summary_sheet (add_summary_sheet ["Sheet1", "統計結果"])).count
        reserved_summary_name = 1 :=
  C8_summary_sheet_idempotent ["Sheet1", "統計結果"] (by decide)

/-- C9: if the primary sheet's header row has no `Name` cell the hyperlink
phase degrades gracefully: the phase still completes (with the warning flag
of line 192 set) and the summary sheet still carries its header and every
summary row, every `Name` cell left as a plain, unlinked value. -/
theorem C9_missing_name_column_degrades (primary : PrimarySheet)
    (title : String) (summaryRows : List (String × String × Nat))
    (h : find_name_col primary.header = none) :
    compose_links primary title summaryRows =
      ⟨⟨["Name", "Data Type", "Count"], summaryRows,
        summaryRows.map fun row => SummaryCell.mk row.1 false⟩, true⟩ := by
  unfold compose_links
  rw [h]

/-- C9 witness: a header without `Name` still yields the full summary sheet,
unlinked, with the warning flag set. -/
theorem C9_witness :
    compose_links ⟨[some "Foo"], []⟩ "Sheet1" [("x", "str", 1)] =
      ⟨⟨["Name", "Data Type", "Count"], [("x", "str", 1)],
        [⟨"x", false⟩]⟩, true⟩ := by
  rw [C9_missing_name_column_degrades ⟨[some "Foo"], []⟩ "Sheet1"
    [("x", "str", 1)] (by decide)]
  rfl

/-! ### Claim theorems: top-level error handling (C10) -/

/-- C10 counterexample: an unclassified failure is surfaced as the 500
internal-failure response, but its message carries the exception's own text
appended to the generic text — the underlying exception text leaks into the
caller-visible message, so the message is not independent of the internal
detail. -/
theorem C10_counterexample :
    (upload_response (.error (.unexpected "secret detail"))).message
        = internal_error_head ++ "secret detail"
    ∧ (upload_response (.error (.unexpected "secret detail"))).message
        ≠ (upload_response (.error (.unexpected ""))).message := by
  refine ⟨rfl, by decide⟩

/-- C10 amended: every unclassified exception is caught at the top level and
surfaced as a 500 internal-failure response with `success = false` whose
message is the fixed generic text followed by the exception's `str(e)` text
— the internal detail is appended rather than withheld. -/
theorem C10_amended_internal_failure (m : String) :
    upload_response (.error (.unexpected m))
      = ⟨500, false, internal_error_head ++ m⟩ := rfl

end ExcelChecker
